import Mathlib

/-!
Verification of the nunif/waifu2x conversion pipeline against its
natural-language specification.  The Python sources embedded here are
`nunif/models/model.py`, `waifu2x/cli.py` and
`waifu2x/training/downscaling_test.py`.  Python dictionaries are embedded
as lookup functions `String → Option V`; fallible code returns
`Except`/`Option`; the thread-pool and the loader queue are embedded as
explicit result records and a step relation.
-/

/-- A Python dict, seen through its lookup function. -/
def Dict (V : Type) : Type := String → Option V

/-- `d[k] = v` : dict update at a single key. -/
def dictSet {V : Type} (d : Dict V) (k : String) (v : V) : Dict V :=
  fun n => if n = k then some v else d n

/-- The empty dict `{}`. -/
def dictEmpty {V : Type} : Dict V := fun _ => none

/--
Embedding of `nunif/models/model.py`, class `Model`:
`self.kwargs` (a dict) and `self.updated_at` (set to `None` in
`__init__`).  The `nn.Module` machinery is external and carries no state
the claims touch.
-/
structure Model (V : Type) where
  kwargs : Dict V
  updated_at : Option Nat

/--
Dict-level effect of `Model.register_kwargs`:
`for name, value in kwargs.items(): if name not in {"self"}: self.kwargs[name] = value`.
Pointwise: a key other than `"self"` present in `kw` is overwritten with
its `kw` value; every other key keeps its current value.
-/
def registerKwargsDict {V : Type} (cur kw : Dict V) : Dict V :=
  fun n =>
    if n = "self" then cur n
    else
      match kw n with
      | some v => some v
      | none => cur n

/-- `Model.register_kwargs(self, kwargs)` from `model.py`. -/
def Model.register_kwargs {V : Type} (m : Model V) (kw : Dict V) : Model V :=
  { m with kwargs := registerKwargsDict m.kwargs kw }

/--
`Model.__init__(self, kwargs)` from `model.py`:
`self.kwargs = {}; self.updated_at = None; self.register_kwargs(kwargs)`.
-/
def Model.init {V : Type} (kw : Dict V) : Model V :=
  Model.register_kwargs { kwargs := dictEmpty, updated_at := none } kw

/-- `Model.get_kwargs` from `model.py`. -/
def Model.get_kwargs {V : Type} (m : Model V) : Dict V := m.kwargs

/--
Embedding of `I2IBaseModel` from `model.py`: a `Model` plus
`self.i2i_scale = scale; self.i2i_offset = offset`.
-/
structure I2IBaseModel (V : Type) where
  base : Model V
  i2i_scale : Int
  i2i_offset : Int

/-- `I2IBaseModel.__init__(self, kwargs, scale, offset)` from `model.py`. -/
def I2IBaseModel.init {V : Type} (kw : Dict V) (scale offset : Int) :
    I2IBaseModel V :=
  { base := Model.init kw, i2i_scale := scale, i2i_offset := offset }

/-- `I2IBaseModel.get_config` from `model.py`, as the pair it reports. -/
def I2IBaseModel.get_config {V : Type} (m : I2IBaseModel V) : Int × Int :=
  (m.i2i_scale, m.i2i_offset)

/--
Modelled from the spec: the closed registry of transformation kinds
(`create_model` and the model registry are not under `src/`; only
`Model`/`I2IBaseModel` are).  Per the spec a kind is an identifier plus a
constructor; the constructor builds an `I2IBaseModel`, registering the
named constructor arguments (which exclude `self`) and deriving its
`scale`/`offset` from those named arguments.  `geometry` is that
derivation.
-/
structure TransformKind (V : Type) where
  transform_id : String
  geometry : Dict V → Int × Int

/--
Modelled from the spec: `construct(transform_id, params)` — invoke the
kind's constructor with the given named parameters; the instance captures
them via `Model.__init__`/`register_kwargs` and sets `i2i_scale` and
`i2i_offset` from the kind's geometry on the captured (non-`self`)
arguments.
-/
def construct {V : Type} (k : TransformKind V) (params : Dict V) :
    I2IBaseModel V :=
  let g := k.geometry (Model.init params).kwargs
  I2IBaseModel.init params g.1 g.2

/-- A checkpoint descriptor as the spec lists its fields. -/
structure Descriptor (V : Type) where
  transform_id : String
  params : Dict V
  scale : Int
  offset : Int

/--
Modelled from the spec: `describe(instance)` — report the kind identity,
the captured kwargs (`Model.get_kwargs`) and the current geometry.
-/
def describe {V : Type} (k : TransformKind V) (x : I2IBaseModel V) :
    Descriptor V :=
  { transform_id := k.transform_id
  , params := x.base.get_kwargs
  , scale := x.i2i_scale
  , offset := x.i2i_offset }

/-- Last-one-wins union of a stack of dicts, base dict first. -/
def dictOverride {V : Type} (base kw : Dict V) : Dict V :=
  fun n =>
    match kw n with
    | some v => some v
    | none => base n

lemma Model.init_kwargs {V : Type} (kw : Dict V) (n : String) :
    (Model.init kw).kwargs n = if n = "self" then none else kw n := by
  unfold Model.init Model.register_kwargs registerKwargsDict dictEmpty
  by_cases h : n = "self"
  · simp [h]
  · simp only [h, if_false]
    cases kw n <;> rfl

lemma Model.init_idem {V : Type} (kw : Dict V) :
    Model.init (Model.init kw).kwargs = Model.init kw := by
  have hk : (Model.init (Model.init kw).kwargs).kwargs = (Model.init kw).kwargs := by
    funext n
    rw [Model.init_kwargs, Model.init_kwargs]
    by_cases h : n = "self" <;> simp [h, Model.init_kwargs]
  unfold Model.init Model.register_kwargs at *
  simp_all

lemma foldl_dictOverride_congr {V : Type} (kws : List (Dict V)) (n : String)
    (d d' : Dict V) (h : d n = d' n) :
    (kws.foldl dictOverride d) n = (kws.foldl dictOverride d') n := by
  induction kws generalizing d d' with
  | nil => exact h
  | cons kw rest ih =>
      simp only [List.foldl_cons]
      apply ih
      simp only [dictOverride, h]

lemma foldl_register_kwargs {V : Type} (kws : List (Dict V)) (m : Model V) (n : String) :
    (kws.foldl Model.register_kwargs m).kwargs n =
      if n = "self" then m.kwargs n else (kws.foldl dictOverride m.kwargs) n := by
  induction kws generalizing m with
  | nil => by_cases h : n = "self" <;> simp [h]
  | cons kw rest ih =>
      simp only [List.foldl_cons]
      rw [ih]
      by_cases h : n = "self"
      · simp [h, Model.register_kwargs, registerKwargsDict]
      · simp only [h, if_false]
        apply foldl_dictOverride_congr
        simp [Model.register_kwargs, registerKwargsDict, dictOverride, h]

/--
C4: Descriptor round-trip — for every transformation instance `x` of a
registered kind, constructing a new instance from
`describe(x).transform_id` and `describe(x).params` (the kwargs captured
at construction and returned by `get_kwargs`) yields an instance whose
`i2i_scale` and `i2i_offset` are identical to `x`'s.
-/
theorem c4_descriptor_roundtrip {V : Type} (k : TransformKind V) (p : Dict V) :
    (construct k (describe k (construct k p)).params).i2i_scale
        = (construct k p).i2i_scale ∧
    (construct k (describe k (construct k p)).params).i2i_offset
        = (construct k p).i2i_offset := by
  simp only [construct, describe, Model.get_kwargs, I2IBaseModel.init,
    Model.init_idem]
  trivial

/--
C5: For every kwargs mapping passed at `Model` construction, and after
any sequence of `register_kwargs` calls, the captured params mapping
returned by `get_kwargs` holds exactly the given entries (later calls
overriding earlier ones) except any key literally named `"self"`; in
particular `"self"` is never a key of the captured params.
-/
theorem c5_kwargs_exact_minus_self {V : Type} (kw : Dict V)
    (kws : List (Dict V)) (n : String) :
    (kws.foldl Model.register_kwargs (Model.init kw)).get_kwargs n
        = (if n = "self" then none else (kws.foldl dictOverride kw) n) ∧
    (kws.foldl Model.register_kwargs (Model.init kw)).get_kwargs "self"
        = none := by
  have key : ∀ x : String,
      (kws.foldl Model.register_kwargs (Model.init kw)).kwargs x
        = (if x = "self" then none else (kws.foldl dictOverride kw) x) := by
    intro x
    rw [foldl_register_kwargs]
    by_cases h : x = "self"
    · simp [h, Model.init_kwargs]
    · simp only [h, if_false]
      apply foldl_dictOverride_congr
      simp [Model.init_kwargs, h]
  refine ⟨key n, ?_⟩
  simpa using key "self"

/--
C6 counterexample: immediately after `Model.__init__`, `updated_at` does
not hold a timestamp — it is `None` (here at the concrete empty kwargs).
-/
theorem c6_counterexample :
    ((Model.init (dictEmpty : Dict Int)).updated_at).isSome = false := rfl

/--
C6 (amended): immediately after a `Model` is constructed, its
`updated_at` field is `None` (unset); it is only assigned later, by
load/save code outside the embedded sources.
-/
theorem c6_updated_at_none_on_init {V : Type} (kw : Dict V) :
    (Model.init kw).updated_at = none := rfl

/-! ## Embedding of `waifu2x/cli.py` -/

/-- A value stored in an image's metadata dict. -/
inductive MetaVal
  | int (n : Int)
  | bool (b : Bool)
  | str (s : String)
deriving DecidableEq

/-- The CLI arguments the conversion functions read. -/
structure CliArgs where
  depth : Option Int
  grayscale : Bool
  format : String
  output : String

/--
The metadata edit both `convert_file` and `convert_files` perform between
load and save:
`if args.depth is not None: meta["depth"] = args.depth` followed by
`if args.grayscale: meta["grayscale"] = True`.
-/
def updateMeta (args : CliArgs) (meta : Dict MetaVal) : Dict MetaVal :=
  let meta1 :=
    match args.depth with
    | some d => dictSet meta "depth" (.int d)
    | none => meta
  if args.grayscale then dictSet meta1 "grayscale" (.bool true) else meta1

/-- Outcome of one `IL.save_image` call when its thread-pool task runs. -/
inductive SaveRes
  | ok
  | err (msg : String)
deriving DecidableEq

/--
One source file of a batch job, with the outcomes of its external codec
calls: `decoded = some meta` when `IL.load_image` succeeds with metadata
`meta` (`none` is a decode failure), and `save` is the outcome its
`IL.save_image` task will have when executed.
-/
structure Job where
  filename : String
  decoded : Option (Dict MetaVal)
  save : SaveRes

/--
The files `convert_files`' main loop receives from the `ImageLoader`
iterator, i.e. the futures it submits, one per successfully decoded file.
Modelled from the spec for the loader part: `ImageLoader` is not under
`src/`; per the spec, codec (decode) errors are local to one job and
siblings continue, so the loader skips files that fail to decode.
-/
def submitted (jobs : List Job) : List Job :=
  jobs.filter (fun j => j.decoded.isSome)

/--
The join loop `for f in futures: f.result()` at the end of
`convert_files`: `f.result()` re-raises the future's exception, so the
loop stops at the first failed future (in submission order) and later
futures' errors are never retrieved.
-/
def joinFutures : List SaveRes → Option String
  | [] => none
  | .ok :: rest => joinFutures rest
  | .err m :: _ => some m

/-- All errors raised by the submitted save tasks, in submission order. -/
def allErrors (jobs : List Job) : List String :=
  (submitted jobs).filterMap
    (fun j => match j.save with | .err m => some m | .ok => none)

/-- What a `convert_files` run produces. -/
structure BatchResult where
  /-- Files whose decode failed; the loader logs and skips them
  (spec-modelled, see `submitted`). -/
  skipped : List String
  /-- Save tasks that ran to completion, with the metadata passed to
  `IL.save_image`.  Every submitted task runs: leaving the
  `with PoolExecutor(...)` block — normally or via an exception from the
  join loop — shuts the pool down waiting for all pending tasks. -/
  executed : List (String × Dict MetaVal)
  /-- Files whose save task succeeded, i.e. whose output was written. -/
  written : List String
  /-- The exception surfaced by the join loop, if any: the error of the
  first failed future in submission order. -/
  raised : Option String

/--
Embedding of `convert_files(ctx, files, args, enable_amp)`: iterate the
loader, convert each decoded image (`ctx.convert` is the external
transformation), apply the metadata edits, submit one save task per file,
then join all futures.  Output naming (`set_image_ext`) is external;
files are identified by their source filename.
-/
def convert_files (args : CliArgs) (jobs : List Job) : BatchResult :=
  let futures := submitted jobs
  { skipped := (jobs.filter (fun j => j.decoded.isNone)).map (·.filename)
  , executed := futures.map
      (fun j => (j.filename, updateMeta args (j.decoded.getD dictEmpty)))
  , written := (futures.filter (fun j => j.save = .ok)).map (·.filename)
  , raised := joinFutures (futures.map (·.save)) }

/-- `str.rfind(c)` from Python: index of the last occurrence, `-1` when
absent. -/
def pyRfind (s : List Char) (c : Char) : Int :=
  match s.reverse.findIdx? (fun x => x = c) with
  | some i => (s.length : Int) - 1 - i
  | none => -1

/--
`os.path.splitext` (posix variant, `sep='/'`, `extsep='.'`), on char
lists: the extension starts at the last dot, provided it lies after the
last separator and at least one character of the basename before it is
not a dot (leading dots do not start an extension).
-/
def splitextList (p : List Char) : List Char × List Char :=
  let sepIndex := pyRfind p '/'
  let dotIndex := pyRfind p '.'
  if dotIndex > sepIndex then
    if (List.range p.length).any (fun i =>
        decide (sepIndex < (i : Int)) && decide ((i : Int) < dotIndex)
          && (p.getD i '.' != '.')) then
      (p.take dotIndex.toNat, p.drop dotIndex.toNat)
    else (p, [])
  else (p, [])

/-- `os.path.splitext` on strings. -/
def splitext (p : String) : String × String :=
  let r := splitextList p.toList
  (⟨r.1⟩, ⟨r.2⟩)

/-- The extension set accepted by `convert_file` (line 66 of `cli.py`). -/
def allowedFormats : List String := ["png", "webp", "jpeg", "jpg"]

/-- `str.lower` on one character (the extensions at play are ASCII). -/
def pyCharLower (c : Char) : Char :=
  if 'A' ≤ c ∧ c ≤ 'Z' then Char.ofNat (c.toNat + 32) else c

/-- `fmt = ext.lower()[1:]` computed from `args.output` (lines 64-65). -/
def outputFmt (output : String) : String :=
  ⟨(((splitext output).2.toList).map pyCharLower).drop 1⟩

/-- Errors `convert_file` can raise. -/
inductive CliErr
  | unrecognized_ext (fmt : String)
  | load_failed (msg : String)
deriving DecidableEq

/-- A pipeline action begun by `convert_file`. -/
inductive Ev
  | load
  | convert
  | save (meta : Dict MetaVal)

/--
Embedding of `convert_file(ctx, args, enable_amp)`: check the output
extension, then load, convert, edit metadata and save.  `loadRes` is the
outcome of the external `IL.load_image` (its metadata on success); the
returned list holds the pipeline actions begun, in order.
-/
def convert_file (args : CliArgs) (loadRes : Except String (Dict MetaVal)) :
    List Ev × Option CliErr :=
  let fmt := outputFmt args.output
  if fmt ∈ allowedFormats then
    match loadRes with
    | .error e => ([.load], some (.load_failed e))
    | .ok meta => ([.load, .convert, .save (updateMeta args meta)], none)
  else ([], some (.unrecognized_ext fmt))

/--
`load_files(txt)` from `cli.py`, over the rows `csv.reader` yields: each
row contributes `row[0]`; a blank line yields the empty row and `row[0]`
raises `IndexError` there, aborting the whole read.
-/
def load_files : List (List String) → Except String (List String)
  | [] => .ok []
  | [] :: _ => .error "IndexError: list index out of range"
  | (x :: _) :: rest => (load_files rest).map (fun fs => x :: fs)

instance {ε α : Type} [DecidableEq ε] [DecidableEq α] :
    DecidableEq (Except ε α) := fun a b =>
  match a, b with
  | .error e, .error e' =>
      if h : e = e' then .isTrue (by rw [h]) else .isFalse (by simp [h])
  | .ok v, .ok v' =>
      if h : v = v' then .isTrue (by rw [h]) else .isFalse (by simp [h])
  | .error _, .ok _ => .isFalse (by simp)
  | .ok _, .error _ => .isFalse (by simp)

/-- How `main` selects the batch's file list (lines 108-114 of `cli.py`). -/
inductive InputSel
  | batch (files : Except String (List String))
  | single
deriving DecidableEq

/--
The dispatch in `main`: a directory input is listed; otherwise an input
whose extension is `.txt` or `.csv` goes through `load_files`; any other
input is a single file.  `rows` is what `csv.reader` yields for the list
file.
-/
def selectInput (isDir : Bool) (input : String) (listing : List String)
    (rows : List (List String)) : InputSel :=
  if isDir then .batch (.ok listing)
  else if (splitext input).2 ∈ [".txt", ".csv"] then .batch (load_files rows)
  else .single

lemma joinFutures_eq_head_of_errs (l : List SaveRes) :
    joinFutures l
      = (l.filterMap
          (fun s => match s with | .err m => some m | .ok => none)).head? := by
  induction l with
  | nil => rfl
  | cons s rest ih => cases s <;> simp [joinFutures, ih]

/-- Default CLI arguments used by the concrete instances below. -/
def argsD : CliArgs := { depth := none, grayscale := false,
                         format := "png", output := "out.png" }

/-- A two-file batch whose save tasks both fail. -/
def jobsTwoErr : List Job :=
  [ { filename := "a.png", decoded := some dictEmpty, save := .err "e1" }
  , { filename := "b.png", decoded := some dictEmpty, save := .err "e2" } ]

/--
C1 counterexample: with two failing save futures, the join loop surfaces
only the first error `"e1"`; the second future's error `"e2"` is raised
by its task but never retrieved — errors are not collected, only the
first is surfaced.
-/
theorem c1_counterexample :
    (convert_files argsD jobsTwoErr).raised = some "e1" ∧
    allErrors jobsTwoErr = ["e1", "e2"] ∧
    (convert_files argsD jobsTwoErr).raised ≠ some "e2" := by
  refine ⟨rfl, rfl, ?_⟩
  intro h
  simp [convert_files, jobsTwoErr, submitted, joinFutures] at h

/--
C1 (amended): `convert_files` waits for every submitted encode/write
future to complete before the job finishes (leaving the pool's `with`
block joins them all, so `executed` covers every submitted task), and it
surfaces exactly the first error in submission order; errors of later
futures are silently dropped, not collected.
-/
theorem c1_awaits_all_surfaces_first_error (args : CliArgs) (jobs : List Job) :
    (convert_files args jobs).executed.map Prod.fst
        = (submitted jobs).map Job.filename ∧
    (convert_files args jobs).raised = (allErrors jobs).head? := by
  constructor
  · simp [convert_files, List.map_map]
  · simp only [convert_files, allErrors, joinFutures_eq_head_of_errs,
      List.filterMap_map]
    rfl

/--
C2: in batch mode a decode failure or a save failure of one file does not
abort the others — every file of the batch that decodes and saves
successfully has its output written, whatever happens to its siblings —
decode-failed files are each reported as skipped, their count matching
the failures, and in single-file mode `convert_file` propagates the load
error directly.
-/
theorem c2_per_file_independence (args : CliArgs) (jobs : List Job) :
    (∀ j ∈ jobs, j.decoded.isSome → j.save = .ok →
        j.filename ∈ (convert_files args jobs).written) ∧
    (∀ j ∈ jobs, j.decoded = none →
        j.filename ∈ (convert_files args jobs).skipped) ∧
    ((convert_files args jobs).skipped.length
        = (jobs.filter (fun j => j.decoded.isNone)).length) ∧
    (∀ (a : CliArgs) (e : String), outputFmt a.output ∈ allowedFormats →
        convert_file a (.error e) = ([.load], some (.load_failed e))) := by
  refine ⟨?_, ?_, ?_, ?_⟩
  · intro j hj hdec hsave
    simp only [convert_files, List.mem_map]
    exact ⟨j, List.mem_filter.2 ⟨List.mem_filter.2 ⟨hj, by simpa using hdec⟩,
      by simp [hsave]⟩, rfl⟩
  · intro j hj hdec
    simp only [convert_files, List.mem_map]
    exact ⟨j, List.mem_filter.2 ⟨hj, by simp [hdec]⟩, rfl⟩
  · simp [convert_files]
  · intro a e hfmt
    simp [convert_file, hfmt]

/-- A five-file batch in which only file 3 is corrupt (fails to decode). -/
def jobsFive : List Job :=
  [ { filename := "f1", decoded := some dictEmpty, save := .ok }
  , { filename := "f2", decoded := some dictEmpty, save := .ok }
  , { filename := "f3", decoded := none, save := .ok }
  , { filename := "f4", decoded := some dictEmpty, save := .ok }
  , { filename := "f5", decoded := some dictEmpty, save := .ok } ]

theorem c2_witness :
    "f4" ∈ (convert_files argsD jobsFive).written ∧
    "f3" ∈ (convert_files argsD jobsFive).skipped ∧
    (convert_files argsD jobsFive).skipped.length = 1 ∧
    convert_file argsD (.error "DecodeError")
        = ([.load], some (.load_failed "DecodeError")) := by
  refine ⟨?_, ?_, ?_, ?_⟩
  · exact (c2_per_file_independence argsD jobsFive).1
      { filename := "f4", decoded := some dictEmpty, save := .ok }
      (by simp [jobsFive]) rfl rfl
  · exact (c2_per_file_independence argsD jobsFive).2.1
      { filename := "f3", decoded := none, save := .ok }
      (by simp [jobsFive]) rfl
  · rw [(c2_per_file_independence argsD jobsFive).2.2.1]
    rfl
  · exact (c2_per_file_independence argsD jobsFive).2.2.2 argsD "DecodeError"
      (by decide)

/-- Arguments requesting a 16-bit output depth. -/
def args16 : CliArgs := { depth := some 16, grayscale := false,
                          format := "png", output := "out.png" }

/-- A one-file batch that decodes with empty metadata and saves fine. -/
def jobOne : List Job :=
  [ { filename := "f1", decoded := some dictEmpty, save := .ok } ]

/--
C3 counterexample: with `--depth 16`, the metadata handed to
`IL.save_image` by `convert_files` maps `"depth"` to `16` while the
loaded metadata had no `"depth"` key — a field was added between load
and save, so the metadata is not carried through unmodified.
-/
theorem c3_counterexample :
    ((convert_files args16 jobOne).executed.headD ("", dictEmpty)).2 "depth"
        = some (.int 16) ∧
    (dictEmpty : Dict MetaVal) "depth" = none := ⟨rfl, rfl⟩

/--
C3 (amended): between load and save, `convert_file` and `convert_files`
(via `updateMeta`) leave every metadata field unchanged except that
`"depth"` is overwritten when `--depth` is given and `"grayscale"` is set
when `--grayscale` is given; with neither flag the metadata is carried
through unmodified.
-/
theorem c3_meta_preserved_except_flags (args : CliArgs)
    (meta : Dict MetaVal) (n : String) :
    (n ≠ "depth" → n ≠ "grayscale" → updateMeta args meta n = meta n) ∧
    (args.depth = none →
        updateMeta args meta "depth" = meta "depth") ∧
    (args.grayscale = false →
        updateMeta args meta "grayscale" = meta "grayscale") ∧
    (args.depth = none → args.grayscale = false →
        updateMeta args meta = meta) := by
  refine ⟨?_, ?_, ?_, ?_⟩
  · intro hd hg
    cases hdep : args.depth <;>
      cases hgray : args.grayscale <;>
        simp [updateMeta, dictSet, hdep, hgray, hd, hg]
  · intro hdep
    cases hgray : args.grayscale <;>
      simp [updateMeta, dictSet, hdep, hgray]
  · intro hgray
    cases hdep : args.depth <;>
      simp [updateMeta, dictSet, hdep, hgray]
  · intro hdep hgray
    funext x
    simp [updateMeta, hdep, hgray]

theorem c3_witness :
    updateMeta argsD dictEmpty "filename"
        = (dictEmpty : Dict MetaVal) "filename" ∧
    updateMeta argsD dictEmpty = (dictEmpty : Dict MetaVal) := by
  exact ⟨(c3_meta_preserved_except_flags argsD dictEmpty "filename").1
            (by decide) (by decide),
         (c3_meta_preserved_except_flags argsD dictEmpty "filename").2.2.2
            rfl rfl⟩

/--
C7: `convert_file` raises the unrecognized-extension `ValueError` exactly
when the lowercased, dot-stripped extension of the output path is not one
of `png`, `webp`, `jpeg`, `jpg`; and when it does, it does so before any
processing: no load, convert or save action is begun.
-/
theorem c7_ext_check_before_processing (args : CliArgs)
    (loadRes : Except String (Dict MetaVal)) :
    ((convert_file args loadRes).2
        = some (.unrecognized_ext (outputFmt args.output))
      ↔ outputFmt args.output ∉ allowedFormats) ∧
    (outputFmt args.output ∉ allowedFormats →
      convert_file args loadRes
        = ([], some (.unrecognized_ext (outputFmt args.output)))) := by
  by_cases hmem : outputFmt args.output ∈ allowedFormats
  · refine ⟨⟨fun h => ?_, fun h => absurd hmem h⟩, fun h => absurd hmem h⟩
    cases loadRes <;> simp [convert_file, hmem] at h
  · exact ⟨⟨fun _ => hmem, fun _ => by simp [convert_file, hmem]⟩,
      fun _ => by simp [convert_file, hmem]⟩

/-- Arguments whose output path carries an unsupported extension. -/
def argsBmp : CliArgs := { depth := none, grayscale := false,
                           format := "png", output := "out.bmp" }

theorem c7_witness :
    outputFmt argsBmp.output = "bmp" ∧
    convert_file argsBmp (.ok dictEmpty)
      = ([], some (.unrecognized_ext (outputFmt argsBmp.output))) := by
  exact ⟨by decide,
    (c7_ext_check_before_processing argsBmp (.ok dictEmpty)).2 (by decide)⟩

lemma load_files_ok (rows : List (List String))
    (h : ∀ r ∈ rows, r ≠ []) :
    load_files rows = .ok (rows.map (fun r => r.headD "")) := by
  induction rows with
  | nil => rfl
  | cons r rest ih =>
      cases r with
      | nil => exact absurd rfl (h [] (by simp))
      | cons x xs =>
          have := ih (fun r hr => h r (by simp [hr]))
          simp [load_files, this, Except.map]

/--
C9 (amended): when the input path has extension `.txt` or `.csv` and
every row of the list file has at least one column, the batch processes
exactly the first column of each row, in row order; a row with no columns
(a blank line) instead raises `IndexError` from `row[0]` and no file list
is produced.
-/
theorem c9_first_column_in_row_order (input : String) (listing : List String)
    (rows : List (List String))
    (hext : (splitext input).2 ∈ [".txt", ".csv"])
    (hrows : ∀ r ∈ rows, r ≠ []) :
    selectInput false input listing rows
      = .batch (.ok (rows.map (fun r => r.headD ""))) := by
  simp [selectInput, hext, load_files_ok rows hrows]

/-- Rows of a list file with a blank line between two paths. -/
def badRows : List (List String) := [["a"], [], ["b"]]

/--
C9 counterexample: a `.txt` list file whose second line is blank makes
`load_files` raise `IndexError` (the blank line yields an empty row and
`row[0]` is out of range), so the batch is not the first column of each
row — no file list is produced at all.
-/
theorem c9_counterexample :
    selectInput false "list.txt" [] badRows
        = .batch (.error "IndexError: list index out of range") ∧
    selectInput false "list.txt" [] badRows ≠ .batch (.ok ["a", "b"]) := by
  constructor
  · decide
  · decide

theorem c9_witness :
    selectInput false "list.csv" [] [["a"], ["b", "x"]]
        = .batch (.ok ["a", "b"]) := by
  have h := c9_first_column_in_row_order "list.csv" [] [["a"], ["b", "x"]]
    (by decide) (by decide)
  simpa using h

/--
The queue capacity `convert_files` configures:
`ImageLoader(files=files, max_queue_size=128, ...)` (line 35 of
`cli.py`).
-/
def max_queue_size : Nat := 128

/--
Modelled from the spec: `ImageLoader`'s bounded prefetch queue (the
loader itself is not under `src/`).  The producer decodes pending files
and pushes them; the conversion loop pops them.  A push is only enabled
while the queue holds fewer than `cap` images — pushing blocks when the
queue is full.
-/
structure LoaderState where
  pending : List String
  queue : List String

/-- One step of the producer/consumer queue. -/
inductive LoaderStep (cap : Nat) : LoaderState → LoaderState → Prop
  | push (x : String) (pending : List String) (q : List String)
      (hq : q.length < cap) :
      LoaderStep cap ⟨x :: pending, q⟩ ⟨pending, q ++ [x]⟩
  | pop (x : String) (pending : List String) (q : List String) :
      LoaderStep cap ⟨pending, x :: q⟩ ⟨pending, q⟩

/-- States the loader can reach from a fresh queue over any file list. -/
inductive LoaderReach (cap : Nat) : LoaderState → Prop
  | init (files : List String) : LoaderReach cap ⟨files, []⟩
  | step {s s' : LoaderState} : LoaderReach cap s → LoaderStep cap s s' →
      LoaderReach cap s'

/--
C8: `convert_files` feeds decoded images through a bounded queue of
capacity `max_queue_size = 128`, and in every reachable loader state the
number of in-flight decoded images never exceeds that capacity.
-/
theorem c8_queue_bounded (s : LoaderState)
    (h : LoaderReach max_queue_size s) :
    s.queue.length ≤ max_queue_size ∧ max_queue_size = 128 := by
  refine ⟨?_, rfl⟩
  induction h with
  | init files => simp
  | step hr hs ih =>
      cases hs with
      | push x pending q hq => simpa using hq
      | pop x pending q => simp at ih ⊢; omega

theorem c8_witness :
    ({ pending := [], queue := ["im1"] } : LoaderState).queue.length
        ≤ max_queue_size := by
  have h : LoaderReach max_queue_size { pending := [], queue := ["im1"] } :=
    LoaderReach.step (LoaderReach.init ["im1"])
      (LoaderStep.push "im1" [] [] (by simp [max_queue_size]))
  exact (c8_queue_bounded _ h).1

/-! ## Embedding of `waifu2x/training/downscaling_test.py` -/

/--
A PIL image as `modcrop` sees it: `im.size` is `(w, h)` and the pixel
grid is a list of `h` rows of `w` pixels.
-/
structure PImage where
  w : Nat
  h : Nat
  rows : List (List Int)
  hrows : rows.length = h
  hcols : ∀ r ∈ rows, r.length = w

/--
`modcrop(im)` from `downscaling_test.py`:
`w_pad = -(w % 4); h_pad = -(h % 4)`, and when either is nonzero,
`TF.pad(im, (0, 0, w_pad, h_pad))` — a negative right/bottom pad, i.e. a
crop of `w % 4` columns from the right and `h % 4` rows from the bottom.
-/
def modcrop (im : PImage) : PImage :=
  if im.w % 4 ≠ 0 ∨ im.h % 4 ≠ 0 then
    { w := im.w - im.w % 4
    , h := im.h - im.h % 4
    , rows := (im.rows.take (im.h - im.h % 4)).map
        (fun r => r.take (im.w - im.w % 4))
    , hrows := by
        simp only [List.length_map, List.length_take, im.hrows]
        omega
    , hcols := by
        intro r hr
        simp only [List.mem_map] at hr
        obtain ⟨r0, hr0, rfl⟩ := hr
        have hlen := im.hcols r0 (List.mem_of_mem_take hr0)
        simp only [List.length_take, hlen]
        omega }
  else im

lemma getD_take {α : Type} (l : List α) : ∀ (n i : Nat) (d : α), i < n →
    (l.take n).getD i d = l.getD i d := by
  induction l with
  | nil => intro n i d _; simp
  | cons x xs ih =>
      intro n i d h
      cases n with
      | zero => omega
      | succ n =>
          cases i with
          | zero => rfl
          | succ i => simpa using ih n i d (by omega)

lemma getD_map_of_lt {α β : Type} (f : α → β) (l : List α) :
    ∀ (i : Nat) (d : β) (d' : α), i < l.length →
      (l.map f).getD i d = f (l.getD i d') := by
  induction l with
  | nil => intro i d d' h; simp at h
  | cons x xs ih =>
      intro i d d' h
      cases i with
      | zero => rfl
      | succ i => simpa using ih i d d' (by simpa using h)

lemma modcrop_w (im : PImage) : (modcrop im).w = im.w - im.w % 4 := by
  unfold modcrop
  by_cases h : im.w % 4 ≠ 0 ∨ im.h % 4 ≠ 0
  · rw [if_pos h]
  · rw [if_neg h]
    push_neg at h
    omega

lemma modcrop_h (im : PImage) : (modcrop im).h = im.h - im.h % 4 := by
  unfold modcrop
  by_cases h : im.w % 4 ≠ 0 ∨ im.h % 4 ≠ 0
  · rw [if_pos h]
  · rw [if_neg h]
    push_neg at h
    omega

lemma modcrop_eq_self (im : PImage) (hw : im.w % 4 = 0) (hh : im.h % 4 = 0) :
    modcrop im = im := by
  unfold modcrop
  rw [if_neg]
  simp [hw, hh]

/--
C10: `modcrop` returns an image whose width and height are each the
largest multiple of 4 not exceeding the input's, cropping only from the
right and bottom edges (every surviving pixel keeps its value and
position); an image whose dimensions are already multiples of 4 is
returned unchanged, and `modcrop` is idempotent.
-/
theorem c10_modcrop_spec (im : PImage) :
    ((modcrop im).w = 4 * (im.w / 4) ∧ (modcrop im).h = 4 * (im.h / 4)) ∧
    (∀ m : Nat, 4 ∣ m → m ≤ im.w → m ≤ (modcrop im).w) ∧
    (∀ m : Nat, 4 ∣ m → m ≤ im.h → m ≤ (modcrop im).h) ∧
    (∀ i j : Nat, i < (modcrop im).h → j < (modcrop im).w →
        ((modcrop im).rows.getD i []).getD j 0
          = (im.rows.getD i []).getD j 0) ∧
    (im.w % 4 = 0 → im.h % 4 = 0 → modcrop im = im) ∧
    modcrop (modcrop im) = modcrop im := by
  refine ⟨⟨?_, ?_⟩, ?_, ?_, ?_, ?_, ?_⟩
  · rw [modcrop_w]; omega
  · rw [modcrop_h]; omega
  · intro m hm hle
    rw [modcrop_w]
    omega
  · intro m hm hle
    rw [modcrop_h]
    omega
  · intro i j hi hj
    rw [modcrop_h] at hi
    rw [modcrop_w] at hj
    by_cases hpad : im.w % 4 ≠ 0 ∨ im.h % 4 ≠ 0
    · have hrows : (modcrop im).rows
          = (im.rows.take (im.h - im.h % 4)).map
              (fun r => r.take (im.w - im.w % 4)) := by
        unfold modcrop
        rw [if_pos hpad]
      rw [hrows]
      have hlen : i < (im.rows.take (im.h - im.h % 4)).length := by
        simp only [List.length_take, im.hrows]
        omega
      rw [getD_map_of_lt _ _ i [] [] hlen]
      rw [getD_take _ _ i [] hi, getD_take _ _ j (0 : Int) hj]
    · push_neg at hpad
      have : modcrop im = im := modcrop_eq_self im hpad.1 hpad.2
      rw [this]
  · exact modcrop_eq_self im
  · apply modcrop_eq_self <;> [rw [modcrop_w]; rw [modcrop_h]] <;> omega

/-- A concrete 5 × 6 image (neither dimension a multiple of 4). -/
def imFive : PImage :=
  { w := 5
  , h := 6
  , rows := [ [0, 1, 2, 3, 4], [10, 11, 12, 13, 14], [20, 21, 22, 23, 24]
            , [30, 31, 32, 33, 34], [40, 41, 42, 43, 44]
            , [50, 51, 52, 53, 54] ]
  , hrows := rfl
  , hcols := by decide }

theorem c10_witness :
    (modcrop imFive).w = 4 ∧ (modcrop imFive).h = 4 ∧
    (4 : Nat) ≤ (modcrop imFive).w ∧
    ((modcrop imFive).rows.getD 1 []).getD 2 0
        = (imFive.rows.getD 1 []).getD 2 0 ∧
    modcrop (modcrop imFive) = modcrop imFive := by
  obtain ⟨⟨hw, hh⟩, hmaxw, _, hpx, _, hidem⟩ := c10_modcrop_spec imFive
  refine ⟨?_, ?_, ?_, ?_, hidem⟩
  · rw [hw]; decide
  · rw [hh]; decide
  · exact hmaxw 4 (by decide) (by decide)
  · exact hpx 1 2 (by rw [hh]; decide) (by rw [hw]; decide)
